import Mathlib

/-!
Verification of the safe-scan data crawler pipeline.

This file shallowly embeds the two pipeline stages of the repository:

* `src/main.py` — the paginated catalog fetcher (`fetch_page`, `crawl_data`),
  modelled in namespace `SafeScan.CR`;
* `src/crawl_images_and_label.py` — the image downloader and label writer
  (`download_image`, `process_and_download`, `get_processed_ids`,
  `mark_as_processed`), modelled in namespace `SafeScan.DL`.

Network I/O is modelled by an oracle function from (url, attempt number) to an
outcome; the file system is an explicit association list from path to a
completeness flag; the buffered CSV file is split into an unflushed buffer and
the rows on disk (Python's block-buffered file object flushes small CSV rows
only when the file is closed at the end of the `with` block, while the progress
ledger is opened, appended and closed — hence durable — per call to
`mark_as_processed`).  Each run also records a trace of events (requests,
sleeps, file writes, buffered row appends, ledger appends, flushes) so that
temporal claims can be stated on the order of effects.

Thread-pool completion order (`as_completed`) is modelled deterministically as
submission order; the claims proved here do not depend on a particular
interleaving beyond that sequentialization.
-/

namespace SafeScan

/-- A catalog entry as parsed from one JSON line of the Record Store:
the three required fields `id`, `image_path`, `disease_type`. -/
structure Item where
  id : String
  image_path : String
  disease_type : String
deriving DecidableEq

/-- Outcome of one network attempt for an image download:
`ok` (HTTP success, body fully streamed), `errBefore` (the request or the
status check failed before any body byte was written to the output file),
`errMid` (failure while streaming the body: the output file was created and
holds a zero-byte or truncated payload). -/
inductive NetRes
  | ok
  | errBefore
  | errMid
deriving DecidableEq

/-- Network oracle: outcome of the attempt numbered `a` (0-based) for a url. -/
def Net : Type := String → Nat → NetRes

/-- Observable events of a downloader run, in order of occurrence. -/
inductive Ev
  | req (url : String)
  | slp (n : Nat)
  | fwrite (path : String) (complete : Bool)
  | row (id path label : String)
  | ledgerAdd (id : String)
  | flush
deriving DecidableEq

/-- State of the downloader stage: the image directory (`fs`, path mapped to a
flag telling whether the file holds a complete payload — existence is what the
skip-if-exists check sees, the flag only records truncation), the label CSV
(existence flag, header flag, unflushed buffered rows, rows on disk), the
progress ledger file (one id per line, append-only, durable), and the event
trace. -/
structure St where
  fs : List (String × Bool)
  csvExists : Bool
  hasHeader : Bool
  csvBuf : List (String × String)
  csvDisk : List (String × String)
  ledger : List String
  events : List Ev
deriving DecidableEq

/-- The empty initial state: no files, no CSV, no ledger. -/
def St.init : St := ⟨[], false, false, [], [], [], []⟩

/-- Existence check on the modelled image directory
(`os.path.exists(output_path)`). -/
def fsExistsL (fs : List (String × Bool)) (p : String) : Bool :=
  (fs.find? (fun e => e.1 == p)).isSome

/-- Existence check on a state's file system. -/
def fsExists (s : St) (p : String) : Bool :=
  fsExistsL s.fs p

/-- Write (create or truncate-and-rewrite) the file at `p`; `c` records
whether the payload is complete (`open(output_path, 'wb')` plus the streamed
chunks). -/
def fsSet (fs : List (String × Bool)) (p : String) (c : Bool) :
    List (String × Bool) :=
  (p, c) :: fs.filter (fun e => e.1 != p)

/-- Events that are network requests, in order (`requests.get` calls). -/
def reqsOf : List Ev → List String
  | [] => []
  | .req u :: r => u :: reqsOf r
  | _ :: r => reqsOf r

/-- Events that are sleeps, in order (`time.sleep` calls). -/
def sleepsOf : List Ev → List Nat
  | [] => []
  | .slp n :: r => n :: sleepsOf r
  | _ :: r => sleepsOf r

/-- Ids of buffered label-row appends, in order. -/
def rowIdsOf : List Ev → List String
  | [] => []
  | .row i _ _ :: r => i :: rowIdsOf r
  | _ :: r => rowIdsOf r

/-- Ids of ledger appends, in order. -/
def ledgerIdsOf : List Ev → List String
  | [] => []
  | .ledgerAdd i :: r => i :: ledgerIdsOf r
  | _ :: r => ledgerIdsOf r

/-- Trace predicate: every ledger append in the trace is preceded by a label
row append for the same id (`seen` accumulates ids whose row has already been
appended). -/
def rowBeforeLedger (seen : List String) : List Ev → Bool
  | [] => true
  | .row i _ _ :: r => rowBeforeLedger (i :: seen) r
  | .ledgerAdd i :: r => seen.contains i && rowBeforeLedger seen r
  | _ :: r => rowBeforeLedger seen r

/-- The ids whose row has been appended after also traversing `l`,
newest first. -/
def seenAfter (seen : List String) : List Ev → List String
  | [] => seen
  | .row i _ _ :: r => seenAfter (i :: seen) r
  | _ :: r => seenAfter seen r

/-- Trace predicate: every ledger append in the trace is preceded by a label
row append for the same id that was already flushed to disk when the ledger
append happened (`flushed` holds ids of flushed rows, `pending` ids of rows
still sitting in the buffer). -/
def flushedBeforeLedger (flushed pending : List String) : List Ev → Bool
  | [] => true
  | .row i _ _ :: r => flushedBeforeLedger flushed (i :: pending) r
  | .flush :: r => flushedBeforeLedger (pending ++ flushed) [] r
  | .ledgerAdd i :: r => flushed.contains i && flushedBeforeLedger flushed pending r
  | _ :: r => flushedBeforeLedger flushed pending r

namespace DL

/-- Configuration constant `OUTPUT_DIR` of `crawl_images_and_label.py`. -/
def OUTPUT_DIR : String := "Images"

/-- Configuration constant `BASE_URL` of `crawl_images_and_label.py`. -/
def BASE_URL : String := "https://datasets.safe-scan.ai"

/-- Configuration constant `CANCEROUS_TYPES` of `crawl_images_and_label.py`. -/
def CANCEROUS_TYPES : List String := ["melanoma", "basal_cell_carcinoma"]

/-- Batch size used by `process_and_download` (`batch_size = 100`). -/
def batch_size : Nat := 100

/-- Helper for `basename`: keeps the characters read since the last `/`. -/
def basenameGo (cur : List Char) : List Char → List Char
  | [] => cur.reverse
  | c :: r => if c = '/' then basenameGo [] r else basenameGo (c :: cur) r

/-- Model of `os.path.basename`: the suffix after the last `/`. -/
def basename (s : String) : String :=
  ⟨basenameGo [] s.data⟩

/-- Model of `os.path.relpath(p, start=os.getcwd())` for `p` a relative path
under the current directory (the only shape produced by this program:
`os.path.join("Images", filename)`): the path itself. -/
def relpath (p : String) : String := p

/-- The url requested for an item: `BASE_URL + item["image_path"]`. -/
def itemUrl (it : Item) : String := BASE_URL ++ it.image_path

/-- The destination path for an item:
`os.path.join(OUTPUT_DIR, os.path.basename(item["image_path"]))` (the basename
never contains a separator, so the join is plain concatenation with `/`). -/
def itemOutPath (it : Item) : String :=
  OUTPUT_DIR ++ "/" ++ basename it.image_path

/-- The classification rule inlined in `process_and_download`:
`label = "True" if disease_type in CANCEROUS_TYPES else "False"`. -/
def classify (disease_type : String) : String :=
  if disease_type ∈ CANCEROUS_TYPES then "True" else "False"

/-- The retry loop of `download_image` (`for attempt in range(max_retries)`),
with `fuel` the number of attempts left, `attempt` the 0-based attempt number
and `delay` the current `retry_delay`.  On `ok` the response body is streamed
into the output file; a `requests.exceptions.RequestException` either before
the file was opened (`errBefore`) or mid-stream (`errMid`, leaving a truncated
file on the final path) triggers a sleep and a retry while attempts remain,
and is otherwise reported as `(entry_id, None, False)` — the exception is
caught, never propagated to the pool. -/
def dlGo (net : Net) (url outPath eid : String) :
    Nat → Nat → Nat → St → (String × Option String × Bool) × St
  | 0, _, _, s => ((eid, none, false), s)
  | fuel + 1, attempt, delay, s =>
    let s1 : St := { s with events := s.events ++ [.req url] }
    match net url attempt with
    | .ok =>
      ((eid, some outPath, true),
       { s1 with fs := fsSet s1.fs outPath true,
                 events := s1.events ++ [.fwrite outPath true] })
    | .errBefore =>
      if fuel = 0 then ((eid, none, false), s1)
      else dlGo net url outPath eid fuel (attempt + 1) (delay * 2)
        { s1 with events := s1.events ++ [.slp delay] }
    | .errMid =>
      let s2 : St := { s1 with fs := fsSet s1.fs outPath false,
                               events := s1.events ++ [.fwrite outPath false] }
      if fuel = 0 then ((eid, none, false), s2)
      else dlGo net url outPath eid fuel (attempt + 1) (delay * 2)
        { s2 with events := s2.events ++ [.slp delay] }

/-- Model of `download_image(item)`: skip-if-exists, else up to
`max_retries = 3` attempts starting with `retry_delay = 2`. -/
def download_image (net : Net) (item : Item) (s : St) :
    (String × Option String × Bool) × St :=
  let output_path := itemOutPath item
  if fsExists s output_path then ((item.id, some output_path, true), s)
  else dlGo net (itemUrl item) output_path item.id 3 0 2 s

/-- Sequentialization of the submitted download futures of one batch:
each item's `download_image` runs against the file system as left by the
previous ones; results are collected in submission order. -/
def downloadAll (net : Net) : List Item → St → List (String × Option String × Bool) × St
  | [], s => ([], s)
  | it :: r, s =>
    let (res, s1) := download_image net it s
    let (rs, s2) := downloadAll net r s1
    (res :: rs, s2)

/-- Model of one `csv_writer.writerow([rel_path, label])`: the row goes into
the in-process buffer of the open CSV file, not yet to disk; the event records
which entry id the row was written for. -/
def writeRow (s : St) (eid rel label : String) : St :=
  { s with csvBuf := s.csvBuf ++ [(rel, label)],
           events := s.events ++ [.row eid rel label] }

/-- Model of `mark_as_processed(entry_id)`: open the progress file in append
mode, write `id\n`, close — the append is durable immediately. -/
def mark_as_processed (s : St) (eid : String) : St :=
  { s with ledger := s.ledger ++ [eid],
           events := s.events ++ [.ledgerAdd eid] }

/-- The completion loop over `as_completed(futures)`: for each successful
result, scan the batch list for the first item with the returned id, compute
the label, append the CSV row, then mark the id as processed.  Failures write
nothing. -/
def processResults (batch : List Item) :
    List (String × Option String × Bool) → St → St
  | [], s => s
  | (eid, pathOpt, success) :: rest, s =>
    if success then
      match pathOpt with
      | some image_path =>
        match batch.find? (fun b => b.id == eid) with
        | some batch_item =>
          processResults batch rest
            (mark_as_processed
              (writeRow s eid (relpath image_path)
                (classify batch_item.disease_type)) eid)
        | none => processResults batch rest s
      | none => processResults batch rest s
    else processResults batch rest s

/-- Submit one batch's download tasks and process the completed futures. -/
def flushBatch (net : Net) (batch : List Item) (s : St) : St :=
  let (rs, s1) := downloadAll net batch s
  processResults batch rs s1

/-- Closing the CSV file at the end of the `with open(LABEL_CSV, ...)` block:
the buffered rows are flushed to disk. -/
def closeCsv (s : St) : St :=
  { s with csvDisk := s.csvDisk ++ s.csvBuf, csvBuf := [],
           events := s.events ++ [.flush] }

/-- The main line-processing loop of `process_and_download`.  `pids` is the
set of processed ids read once at startup (`get_processed_ids`) — the code
never updates it during the run.  A line that fails to parse (`none`, a
`json.loads` or missing-field exception) propagates out of the loop: the
pending batch is dropped, the remaining lines are never read, the CSV file is
closed (flushing its buffer) by the context manager, and `main` catches the
exception.  At end of input the remaining partial batch is submitted and
processed, then the CSV is closed. -/
def runLines (net : Net) (pids : List String) :
    List (Option Item) → St → List Item → St
  | [], s, batch => closeCsv (flushBatch net batch s)
  | none :: _, s, _ => closeCsv s
  | some it :: rest, s, batch =>
    if it.id ∈ pids then runLines net pids rest s batch
    else
      let batch' := batch ++ [it]
      if batch_size ≤ batch'.length then
        runLines net pids rest (flushBatch net batch' s) []
      else runLines net pids rest s batch'

/-- Model of `process_and_download()`: read the processed-id set from the
ledger, open the label CSV (append mode if it exists, else create it and write
the header row), then run the line loop with an empty pending batch. -/
def process_and_download (net : Net) (store : List (Option Item)) (s0 : St) : St :=
  let processed_ids := s0.ledger
  let s1 : St :=
    if s0.csvExists then s0
    else { s0 with csvExists := true, hasHeader := true }
  runLines net processed_ids store s1 []

end DL

namespace CR

/-- Configuration constant `PAGE_SIZE` of `main.py`. -/
def PAGE_SIZE : Nat := 100

/-- Configuration constant `TOTAL_ITEMS` of `main.py`. -/
def TOTAL_ITEMS : Nat := 47663

/-- Observable events of a crawl run. -/
inductive CEv
  | req (page : Nat)
  | slp (n : Nat)
deriving DecidableEq

/-- State of the crawl stage: the lines appended to the Record Store so far
(one element per item written as a JSON line) and the event trace.  `α` is the
item payload type (the crawler serializes whatever the API returns). -/
structure CSt (α : Type) where
  out : List α
  events : List CEv
deriving DecidableEq

/-- Page-fetch oracle: result of the attempt numbered `a` (0-based) for a page
(`none` models a `requests.exceptions.RequestException` or HTTP error). -/
def PNet (α : Type) : Type := Nat → Nat → Option (List α)

/-- The retry loop of `fetch_page` (`for attempt in range(max_retries)`), with
`fuel` the attempts left, `attempt` the 0-based attempt number and `delay` the
current `retry_delay`; on exhaustion the exception is re-raised, modelled by a
`none` result. -/
def fpGo (pnet : PNet α) (page : Nat) :
    Nat → Nat → Nat → CSt α → Option (List α) × CSt α
  | 0, _, _, s => (none, s)
  | fuel + 1, attempt, delay, s =>
    let s1 : CSt α := { s with events := s.events ++ [.req page] }
    match pnet page attempt with
    | some d => (some d, s1)
    | none =>
      if fuel = 0 then (none, s1)
      else fpGo pnet page fuel (attempt + 1) (delay * 2)
        { s1 with events := s1.events ++ [.slp delay] }

/-- Model of `fetch_page(page_num)`: up to `max_retries = 3` attempts starting
with `retry_delay = 2`. -/
def fetch_page (pnet : PNet α) (page : Nat) (s : CSt α) :
    Option (List α) × CSt α :=
  fpGo pnet page 3 0 2 s

/-- The page loop of `crawl_data`: for each page number, fetch; on success
append the page's items to the Record Store; on the exception from an
exhausted `fetch_page`, log and continue with the next page. -/
def crawlPages (pnet : PNet α) : List Nat → CSt α → CSt α
  | [], s => s
  | p :: r, s =>
    match fetch_page pnet p s with
    | (some items, s1) => crawlPages pnet r { s1 with out := s1.out ++ items }
    | (none, s1) => crawlPages pnet r s1

/-- Number of pages, by ceiling division
(`(TOTAL_ITEMS + PAGE_SIZE - 1) // PAGE_SIZE`). -/
def total_pages : Nat := (TOTAL_ITEMS + PAGE_SIZE - 1) / PAGE_SIZE

/-- Model of `crawl_data()`: open the output file fresh and walk pages
`1 .. total_pages` in order. -/
def crawl_data (pnet : PNet α) : CSt α :=
  crawlPages pnet (List.range' 1 total_pages) ⟨[], []⟩

end CR

/-- The predicate under which retried downloads are harmless for idempotence:
the destination file is absent and every network attempt for the item's url
fails at the request stage, before any byte reaches the output file. -/
def doomed (net : Net) (fs : List (String × Bool)) (it : Item) : Prop :=
  fsExistsL fs (DL.itemOutPath it) = false ∧
  ∀ a, net (DL.itemUrl it) a = NetRes.errBefore

/-- Ids of store lines that the downloader will treat as work: parsed lines
whose id is not in the processed set, up to the first malformed line. -/
def pendingIds (pids : List String) : List (Option Item) → List String
  | [] => []
  | none :: _ => []
  | some it :: rest =>
    if it.id ∈ pids then pendingIds pids rest
    else it.id :: pendingIds pids rest

/-- Ids of all parsed lines of a store. -/
def storeIds (store : List (Option Item)) : List String :=
  store.filterMap fun o => o.map Item.id

/-- Ids the completion loop will write a label row and a ledger entry for:
results that are successes with a path and whose id is found in the batch. -/
def successIds (batch : List Item) :
    List (String × Option String × Bool) → List String
  | [] => []
  | (eid, pathOpt, success) :: rest =>
    if success ∧ pathOpt.isSome ∧ (batch.find? (fun b => b.id == eid)).isSome
    then eid :: successIds batch rest
    else successIds batch rest

/-- The label rows the completion loop will append for a result list. -/
def successRows (batch : List Item) :
    List (String × Option String × Bool) → List (String × String)
  | [] => []
  | (eid, pathOpt, success) :: rest =>
    if success then
      match pathOpt with
      | some image_path =>
        match batch.find? (fun b => b.id == eid) with
        | some batch_item =>
          (DL.relpath image_path, DL.classify batch_item.disease_type) ::
            successRows batch rest
        | none => successRows batch rest
      | none => successRows batch rest
    else successRows batch rest

/-- Events that are neither label-row appends nor ledger appends (the only
events a download task itself can emit). -/
def quiet : Ev → Bool
  | .row _ _ _ => false
  | .ledgerAdd _ => false
  | _ => true

/-- The events the completion loop appends for a result list: one label-row
append immediately followed by one ledger append per processed success. -/
def pairEvents (batch : List Item) :
    List (String × Option String × Bool) → List Ev
  | [] => []
  | (eid, pathOpt, success) :: rest =>
    if success then
      match pathOpt with
      | some image_path =>
        match batch.find? (fun b => b.id == eid) with
        | some batch_item =>
          Ev.row eid (DL.relpath image_path)
              (DL.classify batch_item.disease_type) ::
            Ev.ledgerAdd eid :: pairEvents batch rest
        | none => pairEvents batch rest
      | none => pairEvents batch rest
    else pairEvents batch rest

/-- Both bookkeeping invariants tying the ledger file to the event trace:
the ledger's content is the sequence of ledger-append events, and the
sequence of label-row ids equals the sequence of ledger ids. -/
def SyncInv (s : St) : Prop :=
  s.ledger = ledgerIdsOf s.events ∧ rowIdsOf s.events = ledgerIdsOf s.events

/-- Oracle where every request succeeds. -/
def netAllOk : Net := fun _ _ => NetRes.ok

/-- Oracle where every request fails while streaming the body. -/
def netAllMid : Net := fun _ _ => NetRes.errMid

/-- Oracle where every request fails before the output file is opened. -/
def netAllBefore : Net := fun _ _ => NetRes.errBefore

/-- A melanoma catalog entry (the entry of the spec's label-correctness
example). -/
def itemMel : Item := ⟨"1", "/a/b/ISIC_001.jpg", "melanoma"⟩

/-- A benign catalog entry. -/
def itemNev : Item := ⟨"7", "/a/b/ISIC_777.jpg", "nevus"⟩

/-- A second benign catalog entry with a distinct id and a distinct basename. -/
def itemNev2 : Item := ⟨"8", "/a/b/ISIC_888.jpg", "nevus"⟩

/-- A catalog entry with a distinct id but the same basename as `itemMel`. -/
def itemDupBase : Item := ⟨"2", "/other/dir/ISIC_001.jpg", "nevus"⟩

/-- Page oracle for the crawl witness: page 50 always fails, every other page
returns the singleton list of its own page number. -/
def pnetW : CR.PNet Nat := fun p _ => if p = 50 then none else some [p]

theorem reqsOf_append (l1 l2 : List Ev) :
    reqsOf (l1 ++ l2) = reqsOf l1 ++ reqsOf l2 := by
  induction l1 with
  | nil => rfl
  | cons e r ih => cases e <;> simp [reqsOf, ih]

theorem sleepsOf_append (l1 l2 : List Ev) :
    sleepsOf (l1 ++ l2) = sleepsOf l1 ++ sleepsOf l2 := by
  induction l1 with
  | nil => rfl
  | cons e r ih => cases e <;> simp [sleepsOf, ih]

theorem rowIdsOf_append (l1 l2 : List Ev) :
    rowIdsOf (l1 ++ l2) = rowIdsOf l1 ++ rowIdsOf l2 := by
  induction l1 with
  | nil => rfl
  | cons e r ih => cases e <;> simp [rowIdsOf, ih]

theorem ledgerIdsOf_append (l1 l2 : List Ev) :
    ledgerIdsOf (l1 ++ l2) = ledgerIdsOf l1 ++ ledgerIdsOf l2 := by
  induction l1 with
  | nil => rfl
  | cons e r ih => cases e <;> simp [ledgerIdsOf, ih]

theorem seenAfter_append (l1 l2 : List Ev) (seen : List String) :
    seenAfter seen (l1 ++ l2) = seenAfter (seenAfter seen l1) l2 := by
  induction l1 generalizing seen with
  | nil => rfl
  | cons e r ih => cases e <;> simp [seenAfter, ih]

theorem rowBeforeLedger_append (l1 l2 : List Ev) (seen : List String) :
    rowBeforeLedger seen (l1 ++ l2)
      = (rowBeforeLedger seen l1 && rowBeforeLedger (seenAfter seen l1) l2) := by
  induction l1 generalizing seen with
  | nil => simp [rowBeforeLedger, seenAfter]
  | cons e r ih =>
    cases e <;> simp [rowBeforeLedger, seenAfter, ih, Bool.and_assoc]

theorem quiet_rowIdsOf : ∀ T : List Ev, T.all quiet = true → rowIdsOf T = [] := by
  intro T
  induction T with
  | nil => intro _; rfl
  | cons e r ih =>
    intro h
    rw [List.all_cons, Bool.and_eq_true] at h
    cases e with
    | row i p l => exact absurd h.1 (by simp [quiet])
    | ledgerAdd i => exact absurd h.1 (by simp [quiet])
    | req u => simpa [rowIdsOf] using ih h.2
    | slp n => simpa [rowIdsOf] using ih h.2
    | fwrite p c => simpa [rowIdsOf] using ih h.2
    | flush => simpa [rowIdsOf] using ih h.2

theorem quiet_ledgerIdsOf :
    ∀ T : List Ev, T.all quiet = true → ledgerIdsOf T = [] := by
  intro T
  induction T with
  | nil => intro _; rfl
  | cons e r ih =>
    intro h
    rw [List.all_cons, Bool.and_eq_true] at h
    cases e with
    | row i p l => exact absurd h.1 (by simp [quiet])
    | ledgerAdd i => exact absurd h.1 (by simp [quiet])
    | req u => simpa [ledgerIdsOf] using ih h.2
    | slp n => simpa [ledgerIdsOf] using ih h.2
    | fwrite p c => simpa [ledgerIdsOf] using ih h.2
    | flush => simpa [ledgerIdsOf] using ih h.2

theorem quiet_rbl :
    ∀ T : List Ev, T.all quiet = true → ∀ seen : List String,
      rowBeforeLedger seen T = true := by
  intro T
  induction T with
  | nil => intro _ seen; rfl
  | cons e r ih =>
    intro h
    rw [List.all_cons, Bool.and_eq_true] at h
    cases e with
    | row i p l => exact absurd h.1 (by simp [quiet])
    | ledgerAdd i => exact absurd h.1 (by simp [quiet])
    | req u => intro seen; simpa [rowBeforeLedger] using ih h.2 seen
    | slp n => intro seen; simpa [rowBeforeLedger] using ih h.2 seen
    | fwrite p c => intro seen; simpa [rowBeforeLedger] using ih h.2 seen
    | flush => intro seen; simpa [rowBeforeLedger] using ih h.2 seen

theorem quiet_seenAfter :
    ∀ T : List Ev, T.all quiet = true → ∀ seen : List String,
      seenAfter seen T = seen := by
  intro T
  induction T with
  | nil => intro _ seen; rfl
  | cons e r ih =>
    intro h
    rw [List.all_cons, Bool.and_eq_true] at h
    cases e with
    | row i p l => exact absurd h.1 (by simp [quiet])
    | ledgerAdd i => exact absurd h.1 (by simp [quiet])
    | req u => intro seen; simpa [seenAfter] using ih h.2 seen
    | slp n => intro seen; simpa [seenAfter] using ih h.2 seen
    | fwrite p c => intro seen; simpa [seenAfter] using ih h.2 seen
    | flush => intro seen; simpa [seenAfter] using ih h.2 seen

theorem DL.dlGo_shape (net : Net) (url p eid : String) :
    ∀ (fuel attempt delay : Nat) (s : St), ∃ (F : List (String × Bool)) (T : List Ev),
      (DL.dlGo net url p eid fuel attempt delay s).2
        = { s with fs := F, events := s.events ++ T } ∧
      T.all quiet = true ∧
      (DL.dlGo net url p eid fuel attempt delay s).1.1 = eid := by
  intro fuel
  induction fuel with
  | zero =>
    intro attempt delay s
    exact ⟨s.fs, [], by simp [DL.dlGo], rfl, rfl⟩
  | succ n ih =>
    intro attempt delay s
    simp only [DL.dlGo]
    cases h : net url attempt with
    | ok =>
      refine ⟨fsSet s.fs p true, [Ev.req url, Ev.fwrite p true], ?_, rfl, rfl⟩
      simp
    | errBefore =>
      by_cases hn : n = 0
      · subst hn
        refine ⟨s.fs, [Ev.req url], ?_, rfl, rfl⟩
        simp
      · obtain ⟨F, T, hst, hq, hid⟩ :=
          ih (attempt + 1) (delay * 2)
            { s with events := (s.events ++ [Ev.req url]) ++ [Ev.slp delay] }
        refine ⟨F, Ev.req url :: Ev.slp delay :: T, ?_, ?_, ?_⟩
        · simp only [hn, if_false]
          rw [hst]
          simp
        · simpa [quiet] using hq
        · simpa [hn] using hid
    | errMid =>
      by_cases hn : n = 0
      · subst hn
        refine ⟨fsSet s.fs p false, [Ev.req url, Ev.fwrite p false], ?_, rfl, rfl⟩
        simp
      · obtain ⟨F, T, hst, hq, hid⟩ :=
          ih (attempt + 1) (delay * 2)
            { s with fs := fsSet s.fs p false,
                     events := ((s.events ++ [Ev.req url]) ++ [Ev.fwrite p false]) ++ [Ev.slp delay] }
        refine ⟨F, Ev.req url :: Ev.fwrite p false :: Ev.slp delay :: T, ?_, ?_, ?_⟩
        · simp only [hn, if_false]
          rw [hst]
          simp
        · simpa [quiet] using hq
        · simpa [hn] using hid

theorem DL.download_image_shape (net : Net) (it : Item) (s : St) :
    ∃ (F : List (String × Bool)) (T : List Ev),
      (DL.download_image net it s).2
        = { s with fs := F, events := s.events ++ T } ∧
      T.all quiet = true ∧
      (DL.download_image net it s).1.1 = it.id := by
  unfold DL.download_image
  by_cases h : fsExists s (DL.itemOutPath it)
  · exact ⟨s.fs, [], by simp [h], rfl, by simp [h]⟩
  · simpa [h] using
      DL.dlGo_shape net (DL.itemUrl it) (DL.itemOutPath it) it.id 3 0 2 s

theorem DL.downloadAll_shape (net : Net) :
    ∀ (b : List Item) (s : St), ∃ (F : List (String × Bool)) (T : List Ev),
      (DL.downloadAll net b s).2
        = { s with fs := F, events := s.events ++ T } ∧
      T.all quiet = true ∧
      ((DL.downloadAll net b s).1.map (fun r => r.1)) = b.map Item.id := by
  intro b
  induction b with
  | nil =>
    intro s
    exact ⟨s.fs, [], by simp [DL.downloadAll], rfl, rfl⟩
  | cons it r ih =>
    intro s
    obtain ⟨F1, T1, hst1, hq1, hid1⟩ := DL.download_image_shape net it s
    obtain ⟨F2, T2, hst2, hq2, hids2⟩ := ih (DL.download_image net it s).2
    refine ⟨F2, T1 ++ T2, ?_, ?_, ?_⟩
    · simp only [DL.downloadAll]
      rw [hst2, hst1]
      simp
    · simp_all
    · simp only [DL.downloadAll, List.map_cons]
      rw [hids2, hid1]

theorem DL.processResults_shape (batch : List Item) :
    ∀ (rs : List (String × Option String × Bool)) (s : St),
      DL.processResults batch rs s
        = { s with csvBuf := s.csvBuf ++ successRows batch rs,
                   ledger := s.ledger ++ successIds batch rs,
                   events := s.events ++ pairEvents batch rs } := by
  intro rs
  induction rs with
  | nil => intro s; simp [DL.processResults, successRows, successIds, pairEvents]
  | cons r rest ih =>
    intro s
    obtain ⟨eid, pathOpt, success⟩ := r
    cases success with
    | false => simp [DL.processResults, successRows, successIds, pairEvents, ih]
    | true =>
      cases pathOpt with
      | none => simp [DL.processResults, successRows, successIds, pairEvents, ih]
      | some image_path =>
        cases hf : batch.find? (fun b => b.id == eid) with
        | none =>
          simp [DL.processResults, successRows, successIds, pairEvents, hf, ih]
        | some batch_item =>
          simp [DL.processResults, successRows, successIds, pairEvents, hf, ih,
                DL.mark_as_processed, DL.writeRow, List.append_assoc]

theorem pairEvents_rowIdsOf (batch : List Item) :
    ∀ rs, rowIdsOf (pairEvents batch rs) = successIds batch rs := by
  intro rs
  induction rs with
  | nil => rfl
  | cons r rest ih =>
    obtain ⟨eid, pathOpt, success⟩ := r
    cases success with
    | false => simp [pairEvents, successIds, ih]
    | true =>
      cases pathOpt with
      | none => simp [pairEvents, successIds, ih]
      | some image_path =>
        cases hf : batch.find? (fun b => b.id == eid) with
        | none => simp [pairEvents, successIds, hf, ih]
        | some batch_item => simp [pairEvents, successIds, hf, ih, rowIdsOf]

theorem pairEvents_ledgerIdsOf (batch : List Item) :
    ∀ rs, ledgerIdsOf (pairEvents batch rs) = successIds batch rs := by
  intro rs
  induction rs with
  | nil => rfl
  | cons r rest ih =>
    obtain ⟨eid, pathOpt, success⟩ := r
    cases success with
    | false => simp [pairEvents, successIds, ih]
    | true =>
      cases pathOpt with
      | none => simp [pairEvents, successIds, ih]
      | some image_path =>
        cases hf : batch.find? (fun b => b.id == eid) with
        | none => simp [pairEvents, successIds, hf, ih]
        | some batch_item => simp [pairEvents, successIds, hf, ih, ledgerIdsOf]

theorem pairEvents_rbl (batch : List Item) :
    ∀ rs (seen : List String), rowBeforeLedger seen (pairEvents batch rs) = true := by
  intro rs
  induction rs with
  | nil => intro seen; rfl
  | cons r rest ih =>
    intro seen
    obtain ⟨eid, pathOpt, success⟩ := r
    cases success with
    | false => simp [pairEvents, ih]
    | true =>
      cases pathOpt with
      | none => simp [pairEvents, ih]
      | some image_path =>
        cases hf : batch.find? (fun b => b.id == eid) with
        | none => simp [pairEvents, hf, ih]
        | some batch_item =>
          simp [pairEvents, hf, rowBeforeLedger, List.contains_cons, ih]

theorem successIds_count (batch : List Item) (x : String) :
    ∀ rs, (successIds batch rs).count x ≤ (rs.map (fun r => r.1)).count x := by
  intro rs
  induction rs with
  | nil => simp [successIds]
  | cons r rest ih =>
    obtain ⟨eid, pathOpt, success⟩ := r
    simp only [successIds, List.map_cons]
    split
    · rw [List.count_cons, List.count_cons]
      exact Nat.add_le_add_right ih _
    · rw [List.count_cons]
      exact Nat.le_trans ih (Nat.le_add_right _ _)

theorem DL.flushBatch_eq (net : Net) (b : List Item) (s : St) :
    DL.flushBatch net b s
      = DL.processResults b (DL.downloadAll net b s).1 (DL.downloadAll net b s).2 :=
  rfl

theorem DL.flushBatch_fields (net : Net) (b : List Item) (s : St) :
    (DL.flushBatch net b s).ledger
        = s.ledger ++ successIds b (DL.downloadAll net b s).1 ∧
    (DL.flushBatch net b s).csvBuf
        = s.csvBuf ++ successRows b (DL.downloadAll net b s).1 ∧
    (DL.flushBatch net b s).csvDisk = s.csvDisk ∧
    (DL.flushBatch net b s).csvExists = s.csvExists ∧
    (DL.flushBatch net b s).hasHeader = s.hasHeader ∧
    rowIdsOf (DL.flushBatch net b s).events
        = rowIdsOf s.events ++ successIds b (DL.downloadAll net b s).1 ∧
    ledgerIdsOf (DL.flushBatch net b s).events
        = ledgerIdsOf s.events ++ successIds b (DL.downloadAll net b s).1 := by
  obtain ⟨F, T, hst, hq, hids⟩ := DL.downloadAll_shape net b s
  rw [DL.flushBatch_eq, DL.processResults_shape, hst]
  simp [rowIdsOf_append, ledgerIdsOf_append, pairEvents_rowIdsOf,
        pairEvents_ledgerIdsOf, quiet_rowIdsOf T hq, quiet_ledgerIdsOf T hq]

theorem DL.flushBatch_count (net : Net) (b : List Item) (s : St) (x : String) :
    (DL.flushBatch net b s).ledger.count x
      ≤ s.ledger.count x + (b.map Item.id).count x := by
  obtain ⟨hl, -⟩ := DL.flushBatch_fields net b s
  obtain ⟨F, T, hst, hq, hids⟩ := DL.downloadAll_shape net b s
  rw [hl, List.count_append]
  have := successIds_count b x (DL.downloadAll net b s).1
  rw [hids] at this
  exact Nat.add_le_add_left this _

theorem DL.flushBatch_sync (net : Net) (b : List Item) (s : St)
    (h : SyncInv s) : SyncInv (DL.flushBatch net b s) := by
  obtain ⟨h1, h2⟩ := h
  obtain ⟨hl, -, -, -, -, hr, hg⟩ := DL.flushBatch_fields net b s
  exact ⟨by rw [hl, hg, h1], by rw [hr, hg, h2]⟩

theorem DL.flushBatch_rbl (net : Net) (b : List Item) (s : St)
    (seen : List String) (h : rowBeforeLedger seen s.events = true) :
    rowBeforeLedger seen (DL.flushBatch net b s).events = true := by
  obtain ⟨F, T, hst, hq, -⟩ := DL.downloadAll_shape net b s
  rw [DL.flushBatch_eq, DL.processResults_shape, hst]
  simp only [rowBeforeLedger_append, Bool.and_eq_true]
  refine ⟨⟨h, quiet_rbl T hq _⟩, pairEvents_rbl _ _ _⟩

theorem DL.downloadAll_cons (net : Net) (it : Item) (r : List Item) (s : St) :
    DL.downloadAll net (it :: r) s
      = ((DL.download_image net it s).1
            :: (DL.downloadAll net r (DL.download_image net it s).2).1,
         (DL.downloadAll net r (DL.download_image net it s).2).2) :=
  rfl

theorem DL.dlGo_fail (net : Net) (url p eid : String)
    (hfail : ∀ a, net url a = NetRes.errBefore) :
    ∀ (fuel attempt delay : Nat) (s : St),
      (DL.dlGo net url p eid fuel attempt delay s).1 = (eid, none, false) ∧
      (DL.dlGo net url p eid fuel attempt delay s).2.fs = s.fs ∧
      (DL.dlGo net url p eid fuel attempt delay s).2.csvExists = s.csvExists ∧
      (DL.dlGo net url p eid fuel attempt delay s).2.hasHeader = s.hasHeader ∧
      (DL.dlGo net url p eid fuel attempt delay s).2.csvBuf = s.csvBuf ∧
      (DL.dlGo net url p eid fuel attempt delay s).2.csvDisk = s.csvDisk ∧
      (DL.dlGo net url p eid fuel attempt delay s).2.ledger = s.ledger := by
  intro fuel
  induction fuel with
  | zero => intro attempt delay s; simp [DL.dlGo]
  | succ n ih =>
    intro attempt delay s
    simp only [DL.dlGo, hfail attempt]
    by_cases hn : n = 0
    · subst hn; simp
    · simp only [hn, if_false]
      exact ih (attempt + 1) (delay * 2) _

theorem DL.download_image_doomed (net : Net) (it : Item) (s : St)
    (hd : doomed net s.fs it) :
    (DL.download_image net it s).1 = (it.id, none, false) ∧
    (DL.download_image net it s).2.fs = s.fs ∧
    (DL.download_image net it s).2.csvExists = s.csvExists ∧
    (DL.download_image net it s).2.hasHeader = s.hasHeader ∧
    (DL.download_image net it s).2.csvBuf = s.csvBuf ∧
    (DL.download_image net it s).2.csvDisk = s.csvDisk ∧
    (DL.download_image net it s).2.ledger = s.ledger := by
  obtain ⟨hne, hfail⟩ := hd
  have hbx : fsExists s (DL.itemOutPath it) = false := hne
  simp only [DL.download_image, hbx, Bool.false_eq_true, if_false]
  exact DL.dlGo_fail net _ _ _ hfail 3 0 2 s

theorem DL.downloadAll_doomed (net : Net) :
    ∀ (b : List Item) (s : St), (∀ it ∈ b, doomed net s.fs it) →
      ((DL.downloadAll net b s).2.fs = s.fs ∧
       (DL.downloadAll net b s).2.csvExists = s.csvExists ∧
       (DL.downloadAll net b s).2.hasHeader = s.hasHeader ∧
       (DL.downloadAll net b s).2.csvBuf = s.csvBuf ∧
       (DL.downloadAll net b s).2.csvDisk = s.csvDisk ∧
       (DL.downloadAll net b s).2.ledger = s.ledger) ∧
      ∀ r ∈ (DL.downloadAll net b s).1, r.2.2 = false := by
  intro b
  induction b with
  | nil => intro s _; exact ⟨by simp [DL.downloadAll], by simp [DL.downloadAll]⟩
  | cons it rest ih =>
    intro s h
    obtain ⟨hres, hfs, hce, hhh, hcb, hcd, hld⟩ :=
      DL.download_image_doomed net it s (h it (List.mem_cons_self it rest))
    have hrest : ∀ x ∈ rest, doomed net (DL.download_image net it s).2.fs x := by
      intro x hx
      rw [hfs]
      exact h x (List.mem_cons_of_mem _ hx)
    obtain ⟨⟨f1, f2, f3, f4, f5, f6⟩, hall⟩ :=
      ih (DL.download_image net it s).2 hrest
    rw [DL.downloadAll_cons]
    refine ⟨⟨?_, ?_, ?_, ?_, ?_, ?_⟩, ?_⟩
    · rw [f1, hfs]
    · rw [f2, hce]
    · rw [f3, hhh]
    · rw [f4, hcb]
    · rw [f5, hcd]
    · rw [f6, hld]
    · intro r hr
      rcases List.mem_cons.mp hr with h1 | h1
      · rw [h1, hres]
      · exact hall r h1

theorem DL.processResults_failures (batch : List Item) :
    ∀ (rs : List (String × Option String × Bool)) (s : St),
      (∀ r ∈ rs, r.2.2 = false) → DL.processResults batch rs s = s := by
  intro rs
  induction rs with
  | nil => intro s _; rfl
  | cons r rest ih =>
    intro s h
    obtain ⟨eid, pathOpt, success⟩ := r
    have h0 : success = false := h (eid, pathOpt, success) (List.mem_cons_self _ _)
    subst h0
    simp only [DL.processResults, Bool.false_eq_true, if_false]
    exact ih s fun x hx => h x (List.mem_cons_of_mem _ hx)

theorem DL.flushBatch_doomed (net : Net) (b : List Item) (s : St)
    (h : ∀ it ∈ b, doomed net s.fs it) :
    (DL.flushBatch net b s).fs = s.fs ∧
    (DL.flushBatch net b s).csvExists = s.csvExists ∧
    (DL.flushBatch net b s).hasHeader = s.hasHeader ∧
    (DL.flushBatch net b s).csvBuf = s.csvBuf ∧
    (DL.flushBatch net b s).csvDisk = s.csvDisk ∧
    (DL.flushBatch net b s).ledger = s.ledger := by
  obtain ⟨⟨f1, f2, f3, f4, f5, f6⟩, hall⟩ := DL.downloadAll_doomed net b s h
  rw [DL.flushBatch_eq, DL.processResults_failures b _ _ hall]
  exact ⟨f1, f2, f3, f4, f5, f6⟩

theorem DL.runLines_basic (net : Net) (pids : List String) :
    ∀ (lines : List (Option Item)) (batch : List Item) (s : St),
      (DL.runLines net pids lines s batch).csvExists = s.csvExists ∧
      (DL.runLines net pids lines s batch).csvBuf = [] := by
  intro lines
  induction lines with
  | nil =>
    intro batch s
    obtain ⟨-, -, -, hce, -, -⟩ := DL.flushBatch_fields net batch s
    simp [DL.runLines, DL.closeCsv, hce]
  | cons o rest ih =>
    intro batch s
    cases o with
    | none => simp [DL.runLines, DL.closeCsv]
    | some it =>
      simp only [DL.runLines]
      by_cases hm : it.id ∈ pids
      · simpa [hm] using ih batch s
      · simp only [hm, if_false]
        by_cases hb : DL.batch_size ≤ (batch ++ [it]).length
        · simp only [hb, if_true]
          obtain ⟨h1, h2⟩ := ih [] (DL.flushBatch net (batch ++ [it]) s)
          obtain ⟨-, -, -, hce, -, -⟩ := DL.flushBatch_fields net (batch ++ [it]) s
          exact ⟨by rw [h1, hce], h2⟩
        · rw [if_neg hb]
          exact ih (batch ++ [it]) s

theorem DL.runLines_count (net : Net) (pids : List String) (x : String) :
    ∀ (lines : List (Option Item)) (batch : List Item) (s : St),
      (DL.runLines net pids lines s batch).ledger.count x
        ≤ s.ledger.count x + (batch.map Item.id).count x
          + (pendingIds pids lines).count x := by
  intro lines
  induction lines with
  | nil =>
    intro batch s
    have h := DL.flushBatch_count net batch s x
    simp only [DL.runLines, DL.closeCsv, pendingIds, List.count_nil]
    omega
  | cons o rest ih =>
    intro batch s
    cases o with
    | none =>
      simp only [DL.runLines, DL.closeCsv, pendingIds, List.count_nil]
      omega
    | some it =>
      simp only [DL.runLines]
      by_cases hm : it.id ∈ pids
      · simp only [hm, if_true]
        have := ih batch s
        simp only [pendingIds, hm, if_true]
        exact this
      · simp only [hm, if_false, pendingIds]
        by_cases hb : DL.batch_size ≤ (batch ++ [it]).length
        · simp only [hb, if_true]
          have h1 := ih [] (DL.flushBatch net (batch ++ [it]) s)
          have h2 := DL.flushBatch_count net (batch ++ [it]) s x
          simp only [List.map_nil, List.count_nil, List.map_append,
            List.count_append, List.map_cons, List.count_cons] at h1 h2 ⊢
          omega
        · simp only [hb, if_false]
          have h1 := ih (batch ++ [it]) s
          simp only [List.map_append, List.count_append, List.map_cons,
            List.map_nil, List.count_cons, List.count_nil] at h1 ⊢
          omega

theorem DL.runLines_sync (net : Net) (pids : List String) :
    ∀ (lines : List (Option Item)) (batch : List Item) (s : St),
      SyncInv s → SyncInv (DL.runLines net pids lines s batch) := by
  intro lines
  induction lines with
  | nil =>
    intro batch s h
    obtain ⟨a, b⟩ := DL.flushBatch_sync net batch s h
    refine ⟨?_, ?_⟩ <;>
      simp [DL.runLines, DL.closeCsv, ledgerIdsOf_append, rowIdsOf_append,
        ledgerIdsOf, rowIdsOf, a, b]
  | cons o rest ih =>
    intro batch s h
    cases o with
    | none =>
      obtain ⟨a, b⟩ := h
      refine ⟨?_, ?_⟩ <;>
        simp [DL.runLines, DL.closeCsv, ledgerIdsOf_append, rowIdsOf_append,
          ledgerIdsOf, rowIdsOf, a, b]
    | some it =>
      simp only [DL.runLines]
      by_cases hm : it.id ∈ pids
      · simpa [hm] using ih batch s h
      · simp only [hm, if_false]
        by_cases hb : DL.batch_size ≤ (batch ++ [it]).length
        · simp only [hb, if_true]
          exact ih [] _ (DL.flushBatch_sync net (batch ++ [it]) s h)
        · rw [if_neg hb]
          exact ih (batch ++ [it]) s h

theorem DL.runLines_rbl (net : Net) (pids : List String) :
    ∀ (lines : List (Option Item)) (batch : List Item) (s : St)
      (seen : List String), rowBeforeLedger seen s.events = true →
      rowBeforeLedger seen (DL.runLines net pids lines s batch).events = true := by
  intro lines
  induction lines with
  | nil =>
    intro batch s seen h
    have h2 := DL.flushBatch_rbl net batch s seen h
    simp only [DL.runLines, DL.closeCsv, rowBeforeLedger_append,
      Bool.and_eq_true]
    exact ⟨h2, rfl⟩
  | cons o rest ih =>
    intro batch s seen h
    cases o with
    | none =>
      simp only [DL.runLines, DL.closeCsv, rowBeforeLedger_append,
        Bool.and_eq_true]
      exact ⟨h, rfl⟩
    | some it =>
      simp only [DL.runLines]
      by_cases hm : it.id ∈ pids
      · simpa [hm] using ih batch s seen h
      · simp only [hm, if_false]
        by_cases hb : DL.batch_size ≤ (batch ++ [it]).length
        · simp only [hb, if_true]
          exact ih [] _ seen (DL.flushBatch_rbl net (batch ++ [it]) s seen h)
        · rw [if_neg hb]
          exact ih (batch ++ [it]) s seen h

theorem DL.runLines_doomed (net : Net) (pids : List String) :
    ∀ (lines : List (Option Item)) (batch : List Item) (s : St),
      (∀ it ∈ batch, doomed net s.fs it) →
      (∀ it : Item, Option.some it ∈ lines → it.id ∉ pids →
        doomed net s.fs it) →
      (DL.runLines net pids lines s batch).fs = s.fs ∧
      (DL.runLines net pids lines s batch).ledger = s.ledger ∧
      (DL.runLines net pids lines s batch).csvDisk
        = s.csvDisk ++ s.csvBuf := by
  intro lines
  induction lines with
  | nil =>
    intro batch s hb _
    obtain ⟨f1, -, -, f4, f5, f6⟩ := DL.flushBatch_doomed net batch s hb
    simp [DL.runLines, DL.closeCsv, f1, f4, f5, f6]
  | cons o rest ih =>
    intro batch s hb hl
    cases o with
    | none => simp [DL.runLines, DL.closeCsv]
    | some it =>
      simp only [DL.runLines]
      by_cases hm : it.id ∈ pids
      · simp only [hm, if_true]
        exact ih batch s hb fun x hx hnx =>
          hl x (List.mem_cons_of_mem _ hx) hnx
      · simp only [hm, if_false]
        have hit : doomed net s.fs it :=
          hl it (List.mem_cons_self _ _) hm
        have hball : ∀ x ∈ batch ++ [it], doomed net s.fs x := by
          intro x hx
          rcases List.mem_append.mp hx with h1 | h1
          · exact hb x h1
          · rw [List.mem_singleton.mp h1]; exact hit
        by_cases hbs : DL.batch_size ≤ (batch ++ [it]).length
        · simp only [hbs, if_true]
          obtain ⟨f1, -, -, f4, f5, f6⟩ :=
            DL.flushBatch_doomed net (batch ++ [it]) s hball
          obtain ⟨g1, g2, g3⟩ :=
            ih [] (DL.flushBatch net (batch ++ [it]) s)
              (by intro x hx; exact absurd hx (List.not_mem_nil x))
              (by intro x hx hnx; rw [f1]
                  exact hl x (List.mem_cons_of_mem _ hx) hnx)
          exact ⟨by rw [g1, f1], by rw [g2, f6], by rw [g3, f5, f4]⟩
        · simp only [hbs, if_false]
          exact ih (batch ++ [it]) s hball fun x hx hnx =>
            hl x (List.mem_cons_of_mem _ hx) hnx

theorem pendingIds_count (pids : List String) (x : String) :
    ∀ store : List (Option Item),
      (pendingIds pids store).count x ≤ (storeIds store).count x := by
  intro store
  induction store with
  | nil => simp [pendingIds, storeIds]
  | cons o rest ih =>
    cases o with
    | none => simp [pendingIds, storeIds]
    | some it =>
      by_cases hm : it.id ∈ pids
      · simp only [pendingIds, hm, if_true, storeIds, List.filterMap_cons,
          Option.map_some']
        rw [List.count_cons]
        exact Nat.le_trans ih (Nat.le_add_right _ _)
      · simp only [pendingIds, hm, if_false, storeIds, List.filterMap_cons,
          Option.map_some']
        rw [List.count_cons, List.count_cons]
        exact Nat.add_le_add_right ih _

theorem DL.process_and_download_eq (net : Net) (store : List (Option Item))
    (s0 : St) :
    DL.process_and_download net store s0
      = DL.runLines net s0.ledger store
          (if s0.csvExists then s0
           else { s0 with csvExists := true, hasHeader := true }) [] :=
  rfl

/-- Claim C9: for the catalog entry
`{id: "1", image_path: "/a/b/ISIC_001.jpg", disease_type: "melanoma"}`, with
"melanoma" in the configured positive-category set, the pipeline writes
exactly the label row `("Images/ISIC_001.jpg", "True")` —
the local path is the images directory joined with the basename of the remote
path, and the label is the string "True" because the disease type is a member
of the positive set. -/
theorem c9_label_correctness :
    (DL.process_and_download netAllOk [some itemMel] St.init).csvDisk
      = [("Images/ISIC_001.jpg", "True")] ∧
    DL.itemOutPath itemMel = "Images/" ++ DL.basename itemMel.image_path ∧
    DL.classify "melanoma" = "True" ∧
    (DL.process_and_download netAllOk [some itemMel] St.init).ledger = ["1"] := by
  decide

/-- Claim C1 fails on the code: `processed_ids` is read once at startup and
never updated during the run, so an id appearing on two lines of the Record
Store within a single run is processed twice — here id "1" appears on two
store lines, and the run writes two ledger entries and two label rows for
it. -/
theorem c1_counterexample :
    ((DL.process_and_download netAllOk [some itemMel, some itemMel]
        St.init).ledger.count "1" = 2) ∧
    ((DL.process_and_download netAllOk [some itemMel, some itemMel]
        St.init).csvDisk
      = [("Images/ISIC_001.jpg", "True"), ("Images/ISIC_001.jpg", "True")]) := by
  decide

/-- Claim C2 fails on the code: a first run in which every download attempt
for id "1" fails while streaming the body completes with an empty ledger but
leaves a truncated file at the destination path; the second run, against the
unchanged Record Store and Progress Ledger, hits the skip-if-exists check,
treats the entry as downloaded and writes one new label row and one new
ledger entry. -/
theorem c2_counterexample :
    (DL.process_and_download netAllMid [some itemMel] St.init).ledger = [] ∧
    (DL.process_and_download netAllMid [some itemMel] St.init).csvDisk = [] ∧
    (DL.process_and_download netAllMid [some itemMel]
        (DL.process_and_download netAllMid [some itemMel] St.init)).ledger
      = ["1"] ∧
    (DL.process_and_download netAllMid [some itemMel]
        (DL.process_and_download netAllMid [some itemMel] St.init)).csvDisk
      = [("Images/ISIC_001.jpg", "True")] := by
  decide

/-- Claim C3 fails on the code in its "(and flushed)" part: in a successful
single-entry run the ledger append happens while the label row still sits in
the CSV file's in-process buffer — the only flush of the run is the file
close, which comes after the ledger append in the trace. -/
theorem c3_counterexample :
    flushedBeforeLedger [] []
      (DL.process_and_download netAllOk [some itemMel] St.init).events
      = false ∧
    (DL.process_and_download netAllOk [some itemMel] St.init).events
      = [Ev.req (DL.itemUrl itemMel), Ev.fwrite (DL.itemOutPath itemMel) true,
         Ev.row "1" (DL.itemOutPath itemMel) "True", Ev.ledgerAdd "1",
         Ev.flush] := by
  decide

/-- Claim C4 fails on the code: when every attempt fails while streaming the
body, `open(output_path, 'wb')` has already created the file, so a truncated
file remains at the final destination path after the failure is reported, and
a later `download_image` call for the same entry hits the skip-if-exists
check and treats it as a complete download without issuing a request. -/
theorem c4_counterexample :
    (DL.download_image netAllMid itemMel St.init).1 = ("1", none, false) ∧
    fsExists (DL.download_image netAllMid itemMel St.init).2
      (DL.itemOutPath itemMel) = true ∧
    (DL.download_image netAllMid itemMel St.init).2.fs
      = [("Images/ISIC_001.jpg", false)] ∧
    (DL.download_image netAllMid itemMel
        (DL.download_image netAllMid itemMel St.init).2).1
      = ("1", some "Images/ISIC_001.jpg", true) ∧
    reqsOf (DL.download_image netAllMid itemMel
        (DL.download_image netAllMid itemMel St.init).2).2.events
      = reqsOf (DL.download_image netAllMid itemMel St.init).2.events := by
  decide

/-- Claim C5 fails on the code: `json.loads(line)` is not wrapped in any
per-record exception handler, so a malformed first line aborts the whole
download stage — the well-formed line that follows it is never requested,
labelled or marked, although the same line processed alone is. -/
theorem c5_counterexample :
    (DL.process_and_download netAllOk [none, some itemNev] St.init).ledger
      = [] ∧
    reqsOf (DL.process_and_download netAllOk [none, some itemNev]
        St.init).events = [] ∧
    (DL.process_and_download netAllOk [none, some itemNev] St.init).csvDisk
      = [] ∧
    (DL.process_and_download netAllOk [some itemNev] St.init).ledger
      = ["7"] := by
  decide

/-- Claim C1, amended: only ids already in the Progress Ledger at startup are
protected from reprocessing; the in-run processed set is never updated, so the
guarantee of at most one label row and one ledger entry per id holds provided
the parsed store lines carry pairwise distinct ids.  Under that proviso, each
id gets at most one ledger entry, and the label rows written correspond
one-to-one, in order, to the ledger entries, so every ledger id has exactly
one label row. -/
theorem c1_amended (net : Net) (store : List (Option Item)) (x : String)
    (hnd : (storeIds store).Nodup) :
    (DL.process_and_download net store St.init).ledger.count x ≤ 1 ∧
    rowIdsOf (DL.process_and_download net store St.init).events
      = (DL.process_and_download net store St.init).ledger := by
  have heq : DL.process_and_download net store St.init
      = DL.runLines net [] store (⟨[], true, true, [], [], [], []⟩ : St) [] := rfl
  rw [heq]
  constructor
  · have hcount :=
      DL.runLines_count net [] x store [] (⟨[], true, true, [], [], [], []⟩ : St)
    have h1 := pendingIds_count [] x store
    have h2 := List.nodup_iff_count_le_one.mp hnd x
    simp only [List.map_nil, List.count_nil] at hcount
    omega
  · obtain ⟨a, b⟩ :=
      DL.runLines_sync net [] store [] (⟨[], true, true, [], [], [], []⟩ : St)
        ⟨rfl, rfl⟩
    rw [a]
    exact b

/-- Witness for C1 amended at a concrete store with distinct ids. -/
theorem c1_witness :
    (storeIds [some itemMel, some itemNev]).Nodup ∧
    ((DL.process_and_download netAllOk [some itemMel, some itemNev]
        St.init).ledger.count "1" ≤ 1 ∧
     rowIdsOf (DL.process_and_download netAllOk [some itemMel, some itemNev]
        St.init).events
      = (DL.process_and_download netAllOk [some itemMel, some itemNev]
          St.init).ledger) :=
  ⟨by decide, c1_amended netAllOk [some itemMel, some itemNev] "1" (by decide)⟩

/-- Claim C2, amended: a second run against the unchanged Record Store and
Progress Ledger produces zero new label rows and zero new ledger entries,
provided every store entry either made it into the ledger during the first
run or is doomed — its destination file is absent after the first run and all
its network attempts fail at the request stage.  (The counterexample shows the
proviso is needed: a mid-stream failure leaves a file that converts into a
new label row and ledger entry on the second run.) -/
theorem c2_amended (net : Net) (store : List (Option Item)) (s0 : St)
    (H : ∀ it : Item, Option.some it ∈ store →
      it.id ∈ (DL.process_and_download net store s0).ledger ∨
      doomed net (DL.process_and_download net store s0).fs it) :
    (DL.process_and_download net store
        (DL.process_and_download net store s0)).ledger
      = (DL.process_and_download net store s0).ledger ∧
    (DL.process_and_download net store
        (DL.process_and_download net store s0)).csvDisk
      = (DL.process_and_download net store s0).csvDisk := by
  have hce : (DL.process_and_download net store s0).csvExists = true := by
    rw [DL.process_and_download_eq]
    rw [(DL.runLines_basic net s0.ledger store []
      (if s0.csvExists then s0
       else { s0 with csvExists := true, hasHeader := true })).1]
    by_cases h : s0.csvExists = true <;> simp [h]
  have hbuf : (DL.process_and_download net store s0).csvBuf = [] := by
    rw [DL.process_and_download_eq]
    exact (DL.runLines_basic net s0.ledger store [] _).2
  have heq2 : DL.process_and_download net store
        (DL.process_and_download net store s0)
      = DL.runLines net (DL.process_and_download net store s0).ledger store
          (DL.process_and_download net store s0) [] := by
    rw [DL.process_and_download_eq, if_pos hce]
  obtain ⟨g1, g2, g3⟩ :=
    DL.runLines_doomed net (DL.process_and_download net store s0).ledger store
      [] (DL.process_and_download net store s0)
      (fun x hx => absurd hx (List.not_mem_nil x))
      (fun x hx hnx => (H x hx).resolve_left hnx)
  rw [heq2]
  exact ⟨g2, by rw [g3, hbuf, List.append_nil]⟩

/-- Witness for C2 amended: the single entry fails all attempts at the
request stage in both runs, so the second run adds nothing. -/
theorem c2_witness :
    (DL.process_and_download netAllBefore [some itemMel]
        (DL.process_and_download netAllBefore [some itemMel] St.init)).ledger
      = (DL.process_and_download netAllBefore [some itemMel] St.init).ledger ∧
    (DL.process_and_download netAllBefore [some itemMel]
        (DL.process_and_download netAllBefore [some itemMel] St.init)).csvDisk
      = (DL.process_and_download netAllBefore [some itemMel] St.init).csvDisk :=
  c2_amended netAllBefore [some itemMel] St.init (by
    intro it hit
    have h : Option.some it = Option.some itemMel := List.mem_singleton.mp hit
    rw [Option.some_inj] at h
    subst h
    right
    exact ⟨by decide, fun _ => rfl⟩)

/-- Claim C3, amended: in program order the guarantee holds — every ledger
append in a run's trace is preceded by the label-row append for the same id
(the row is buffered, not flushed, at that point; the flush happens only at
file close). -/
theorem c3_amended (net : Net) (store : List (Option Item)) (s0 : St)
    (h : rowBeforeLedger [] s0.events = true) :
    rowBeforeLedger [] (DL.process_and_download net store s0).events = true := by
  rw [DL.process_and_download_eq]
  apply DL.runLines_rbl
  by_cases hc : s0.csvExists = true <;> simp [hc, h]

/-- Witness for C3 amended at a concrete run. -/
theorem c3_witness :
    rowBeforeLedger [] St.init.events = true ∧
    rowBeforeLedger []
      (DL.process_and_download netAllOk [some itemMel, some itemNev]
        St.init).events = true :=
  ⟨rfl, c3_amended netAllOk [some itemMel, some itemNev] St.init rfl⟩

/-- Claim C4, amended: when every attempt fails at the request stage — before
the output file is opened — no file is left at the destination path; only a
mid-stream failure leaves one (see the counterexample). -/
theorem c4_amended (net : Net) (it : Item) (s : St)
    (hne : fsExists s (DL.itemOutPath it) = false)
    (hfail : ∀ a, net (DL.itemUrl it) a = NetRes.errBefore) :
    (DL.download_image net it s).1 = (it.id, none, false) ∧
    (DL.download_image net it s).2.fs = s.fs ∧
    fsExists (DL.download_image net it s).2 (DL.itemOutPath it) = false := by
  obtain ⟨h1, h2, -, -, -, -, -⟩ :=
    DL.download_image_doomed net it s ⟨hne, hfail⟩
  refine ⟨h1, h2, ?_⟩
  simp only [fsExists]
  rw [h2]
  exact hne

/-- Witness for C4 amended at a concrete input. -/
theorem c4_witness :
    (DL.download_image netAllBefore itemMel St.init).1
      = (itemMel.id, none, false) ∧
    (DL.download_image netAllBefore itemMel St.init).2.fs = St.init.fs ∧
    fsExists (DL.download_image netAllBefore itemMel St.init).2
      (DL.itemOutPath itemMel) = false :=
  c4_amended netAllBefore itemMel St.init rfl (fun _ => rfl)

theorem DL.runLines_abort (net : Net) (pids : List String) :
    ∀ (pre rest1 rest2 : List (Option Item)) (s : St) (batch : List Item),
      DL.runLines net pids (pre ++ Option.none :: rest1) s batch
        = DL.runLines net pids (pre ++ Option.none :: rest2) s batch := by
  intro pre
  induction pre with
  | nil => intro rest1 rest2 s batch; rfl
  | cons o pr ih =>
    intro rest1 rest2 s batch
    cases o with
    | none => rfl
    | some it =>
      simp only [List.cons_append, DL.runLines]
      by_cases hm : it.id ∈ pids
      · simp only [hm, if_true]
        exact ih rest1 rest2 s batch
      · simp only [hm, if_false]
        by_cases hb : DL.batch_size ≤ (batch ++ [it]).length
        · rw [if_pos hb, if_pos hb]
          exact ih rest1 rest2 _ []
        · rw [if_neg hb, if_neg hb]
          exact ih rest1 rest2 s (batch ++ [it])

/-- Claim C5, amended: a malformed Record Store line does not fail only that
single record — it aborts the whole line-processing loop.  Everything after
the malformed line is irrelevant to the run's outcome (the remaining lines
are never read; the exception is caught in `main`, so the process exits
without crashing, and the CSV file is closed, flushing its buffer). -/
theorem c5_amended (net : Net) (store1 store2 : List (Option Item)) (s0 : St) :
    DL.process_and_download net (store1 ++ Option.none :: store2) s0
      = DL.process_and_download net (store1 ++ [Option.none]) s0 := by
  rw [DL.process_and_download_eq, DL.process_and_download_eq]
  exact DL.runLines_abort net s0.ledger store1 store2 [] _ []

/-- Claim C7: a download whose every attempt hits a transient network failure
is attempted exactly 3 times (three requests at the item's url), with sleeps
of 2 then 4 time-units between consecutive attempts and none after the last,
and is reported as `(entry_id, None, False)`; the model's totality reflects
that the exception is caught inside `download_image` and never crashes the
pool. -/
theorem c7_retry_bound (net : Net) (item : Item) (s : St)
    (hne : fsExists s (DL.itemOutPath item) = false)
    (hfail : ∀ a, net (DL.itemUrl item) a ≠ NetRes.ok) :
    (DL.download_image net item s).1 = (item.id, none, false) ∧
    reqsOf (DL.download_image net item s).2.events
      = reqsOf s.events
          ++ [DL.itemUrl item, DL.itemUrl item, DL.itemUrl item] ∧
    sleepsOf (DL.download_image net item s).2.events
      = sleepsOf s.events ++ [2, 4] := by
  simp only [DL.download_image, hne, Bool.false_eq_true, if_false]
  cases h0 : net (DL.itemUrl item) 0 with
  | ok => exact absurd h0 (hfail 0)
  | errBefore =>
    cases h1 : net (DL.itemUrl item) 1 with
    | ok => exact absurd h1 (hfail 1)
    | errBefore =>
      cases h2 : net (DL.itemUrl item) 2 with
      | ok => exact absurd h2 (hfail 2)
      | errBefore =>
        simp [DL.dlGo, h0, h1, h2, reqsOf_append, sleepsOf_append, reqsOf,
          sleepsOf]
      | errMid =>
        simp [DL.dlGo, h0, h1, h2, reqsOf_append, sleepsOf_append, reqsOf,
          sleepsOf]
    | errMid =>
      cases h2 : net (DL.itemUrl item) 2 with
      | ok => exact absurd h2 (hfail 2)
      | errBefore =>
        simp [DL.dlGo, h0, h1, h2, reqsOf_append, sleepsOf_append, reqsOf,
          sleepsOf]
      | errMid =>
        simp [DL.dlGo, h0, h1, h2, reqsOf_append, sleepsOf_append, reqsOf,
          sleepsOf]
  | errMid =>
    cases h1 : net (DL.itemUrl item) 1 with
    | ok => exact absurd h1 (hfail 1)
    | errBefore =>
      cases h2 : net (DL.itemUrl item) 2 with
      | ok => exact absurd h2 (hfail 2)
      | errBefore =>
        simp [DL.dlGo, h0, h1, h2, reqsOf_append, sleepsOf_append, reqsOf,
          sleepsOf]
      | errMid =>
        simp [DL.dlGo, h0, h1, h2, reqsOf_append, sleepsOf_append, reqsOf,
          sleepsOf]
    | errMid =>
      cases h2 : net (DL.itemUrl item) 2 with
      | ok => exact absurd h2 (hfail 2)
      | errBefore =>
        simp [DL.dlGo, h0, h1, h2, reqsOf_append, sleepsOf_append, reqsOf,
          sleepsOf]
      | errMid =>
        simp [DL.dlGo, h0, h1, h2, reqsOf_append, sleepsOf_append, reqsOf,
          sleepsOf]

/-- Witness for C7 at a concrete input. -/
theorem c7_witness :
    (DL.download_image netAllBefore itemMel St.init).1
      = (itemMel.id, none, false) ∧
    reqsOf (DL.download_image netAllBefore itemMel St.init).2.events
      = reqsOf St.init.events
          ++ [DL.itemUrl itemMel, DL.itemUrl itemMel, DL.itemUrl itemMel] ∧
    sleepsOf (DL.download_image netAllBefore itemMel St.init).2.events
      = sleepsOf St.init.events ++ [2, 4] :=
  c7_retry_bound netAllBefore itemMel St.init rfl
    (fun _ h => NetRes.noConfusion h)

/-- Claim C6: with Progress Ledger `{A, B}` and Record Store entries
`{A, B, C}`, a run processes only `C` — the only network request, label row
and ledger append of the run are for `C`; `A` and `B` are skipped before being
batched. -/
theorem c6_resume_correctness (net : Net) (a b c : Item)
    (hca : c.id ≠ a.id) (hcb : c.id ≠ b.id)
    (hnet : net (DL.itemUrl c) 0 = NetRes.ok) :
    (DL.process_and_download net [some a, some b, some c]
        { St.init with ledger := [a.id, b.id] }).ledger
      = [a.id, b.id, c.id] ∧
    reqsOf (DL.process_and_download net [some a, some b, some c]
        { St.init with ledger := [a.id, b.id] }).events
      = [DL.itemUrl c] ∧
    (DL.process_and_download net [some a, some b, some c]
        { St.init with ledger := [a.id, b.id] }).csvDisk
      = [(DL.itemOutPath c, DL.classify c.disease_type)] ∧
    rowIdsOf (DL.process_and_download net [some a, some b, some c]
        { St.init with ledger := [a.id, b.id] }).events
      = [c.id] := by
  have heq : DL.process_and_download net [some a, some b, some c]
      { St.init with ledger := [a.id, b.id] }
      = DL.runLines net [a.id, b.id] [some a, some b, some c]
          (⟨[], true, true, [], [], [a.id, b.id], []⟩ : St) [] := rfl
  rw [heq]
  simp only [DL.runLines, DL.batch_size]
  rw [if_pos (show a.id ∈ [a.id, b.id] by simp),
      if_pos (show b.id ∈ [a.id, b.id] by simp),
      if_neg (show ¬ c.id ∈ [a.id, b.id] by simp [hca, hcb]),
      if_neg (show ¬ (100 ≤ ([] ++ [c] : List Item).length) by simp)]
  simp only [DL.runLines, List.nil_append]
  rw [DL.flushBatch_eq, DL.downloadAll_cons]
  rw [show DL.download_image net c (⟨[], true, true, [], [], [a.id, b.id], []⟩ : St)
      = ((c.id, some (DL.itemOutPath c), true),
         (⟨fsSet [] (DL.itemOutPath c) true, true, true, [], [], [a.id, b.id],
           [Ev.req (DL.itemUrl c), Ev.fwrite (DL.itemOutPath c) true]⟩ : St)) from by
    simp [DL.download_image, fsExists, fsExistsL, DL.dlGo, hnet]]
  simp [DL.downloadAll, DL.processResults, DL.writeRow, DL.mark_as_processed,
    DL.relpath, DL.closeCsv, reqsOf, rowIdsOf]

/-- Witness for C6 at concrete entries and a concrete oracle. -/
theorem c6_witness :
    (DL.process_and_download netAllOk [some itemMel, some itemNev, some itemNev2]
        { St.init with ledger := [itemMel.id, itemNev.id] }).ledger
      = [itemMel.id, itemNev.id, itemNev2.id] ∧
    reqsOf (DL.process_and_download netAllOk
        [some itemMel, some itemNev, some itemNev2]
        { St.init with ledger := [itemMel.id, itemNev.id] }).events
      = [DL.itemUrl itemNev2] ∧
    (DL.process_and_download netAllOk [some itemMel, some itemNev, some itemNev2]
        { St.init with ledger := [itemMel.id, itemNev.id] }).csvDisk
      = [(DL.itemOutPath itemNev2, DL.classify itemNev2.disease_type)] ∧
    rowIdsOf (DL.process_and_download netAllOk
        [some itemMel, some itemNev, some itemNev2]
        { St.init with ledger := [itemMel.id, itemNev.id] }).events
      = [itemNev2.id] :=
  c6_resume_correctness netAllOk itemMel itemNev itemNev2
    (by decide) (by decide) rfl

/-- Claim C10: two catalog entries with distinct ids but image paths sharing a
basename, neither in the ledger, are both treated as successes in one run —
the first is downloaded (the run's only request), the second hits the
skip-if-exists check on the file the first created; both ids are marked done
and two label rows are written referencing the same local path. -/
theorem c10_dup_basename (net : Net) (i1 i2 : Item)
    (hid : i1.id ≠ i2.id)
    (hbase : DL.basename i2.image_path = DL.basename i1.image_path)
    (hnet : net (DL.itemUrl i1) 0 = NetRes.ok) :
    reqsOf (DL.process_and_download net [some i1, some i2] St.init).events
      = [DL.itemUrl i1] ∧
    (DL.process_and_download net [some i1, some i2] St.init).ledger
      = [i1.id, i2.id] ∧
    (DL.process_and_download net [some i1, some i2] St.init).csvDisk
      = [(DL.itemOutPath i1, DL.classify i1.disease_type),
         (DL.itemOutPath i1, DL.classify i2.disease_type)] := by
  have hout : DL.itemOutPath i2 = DL.itemOutPath i1 := by
    simp [DL.itemOutPath, hbase]
  have hbeq : (i1.id == i2.id) = false := by
    simp [hid]
  have heq : DL.process_and_download net [some i1, some i2] St.init
      = DL.runLines net [] [some i1, some i2]
          (⟨[], true, true, [], [], [], []⟩ : St) [] := rfl
  rw [heq]
  simp only [DL.runLines, DL.batch_size]
  rw [if_neg (show ¬ i1.id ∈ ([] : List String) by simp),
      if_neg (show ¬ (100 ≤ ([] ++ [i1] : List Item).length) by simp),
      if_neg (show ¬ i2.id ∈ ([] : List String) by simp),
      if_neg (show ¬ (100 ≤ (([] ++ [i1]) ++ [i2] : List Item).length) by simp)]
  simp only [DL.runLines, List.nil_append, List.singleton_append]
  rw [DL.flushBatch_eq, DL.downloadAll_cons]
  rw [show DL.download_image net i1 (⟨[], true, true, [], [], [], []⟩ : St)
      = ((i1.id, some (DL.itemOutPath i1), true),
         (⟨fsSet [] (DL.itemOutPath i1) true, true, true, [], [], [],
           [Ev.req (DL.itemUrl i1), Ev.fwrite (DL.itemOutPath i1) true]⟩ : St)) from by
    simp [DL.download_image, fsExists, fsExistsL, DL.dlGo, hnet]]
  rw [DL.downloadAll_cons]
  rw [show DL.download_image net i2
        (⟨fsSet [] (DL.itemOutPath i1) true, true, true, [], [], [],
          [Ev.req (DL.itemUrl i1), Ev.fwrite (DL.itemOutPath i1) true]⟩ : St)
      = ((i2.id, some (DL.itemOutPath i2), true),
         (⟨fsSet [] (DL.itemOutPath i1) true, true, true, [], [], [],
           [Ev.req (DL.itemUrl i1), Ev.fwrite (DL.itemOutPath i1) true]⟩ : St)) from by
    simp [DL.download_image, fsExists, fsExistsL, fsSet, hout]]
  simp [DL.downloadAll, DL.processResults, DL.writeRow, DL.mark_as_processed,
    DL.relpath, DL.closeCsv, reqsOf, rowIdsOf, hbeq, hout]

/-- Witness for C10 at concrete entries sharing a basename. -/
theorem c10_witness :
    reqsOf (DL.process_and_download netAllOk [some itemMel, some itemDupBase]
        St.init).events = [DL.itemUrl itemMel] ∧
    (DL.process_and_download netAllOk [some itemMel, some itemDupBase]
        St.init).ledger = [itemMel.id, itemDupBase.id] ∧
    (DL.process_and_download netAllOk [some itemMel, some itemDupBase]
        St.init).csvDisk
      = [(DL.itemOutPath itemMel, DL.classify itemMel.disease_type),
         (DL.itemOutPath itemMel, DL.classify itemDupBase.disease_type)] :=
  c10_dup_basename netAllOk itemMel itemDupBase (by decide) (by decide) rfl

theorem CR.fpGo_evmono {α : Type} (pnet : CR.PNet α) (page : Nat) :
    ∀ (fuel attempt delay : Nat) (s : CR.CSt α) (e : CR.CEv),
      e ∈ s.events → e ∈ (CR.fpGo pnet page fuel attempt delay s).2.events := by
  intro fuel
  induction fuel with
  | zero => intro attempt delay s e he; exact he
  | succ n ih =>
    intro attempt delay s e he
    simp only [CR.fpGo]
    cases h : pnet page attempt with
    | some d =>
      show e ∈ s.events ++ [CR.CEv.req page]
      exact List.mem_append_left _ he
    | none =>
      by_cases hn : n = 0
      · subst hn
        show e ∈ s.events ++ [CR.CEv.req page]
        exact List.mem_append_left _ he
      · simp only [hn, if_false]
        apply ih
        show e ∈ (s.events ++ [CR.CEv.req page]) ++ [CR.CEv.slp delay]
        exact List.mem_append_left _ (List.mem_append_left _ he)

theorem CR.fpGo_req {α : Type} (pnet : CR.PNet α) (page : Nat) :
    ∀ (fuel attempt delay : Nat) (s : CR.CSt α), 0 < fuel →
      CR.CEv.req page ∈ (CR.fpGo pnet page fuel attempt delay s).2.events := by
  intro fuel
  cases fuel with
  | zero => intro attempt delay s h; exact absurd h (by omega)
  | succ n =>
    intro attempt delay s _
    simp only [CR.fpGo]
    cases h : pnet page attempt with
    | some d =>
      show CR.CEv.req page ∈ s.events ++ [CR.CEv.req page]
      exact List.mem_append_right _ (by simp)
    | none =>
      by_cases hn : n = 0
      · subst hn
        show CR.CEv.req page ∈ s.events ++ [CR.CEv.req page]
        exact List.mem_append_right _ (by simp)
      · simp only [hn, if_false]
        apply CR.fpGo_evmono
        show CR.CEv.req page ∈ (s.events ++ [CR.CEv.req page]) ++ [CR.CEv.slp delay]
        exact List.mem_append_left _ (List.mem_append_right _ (by simp))

theorem CR.fpGo_fail {α : Type} (pnet : CR.PNet α) (page : Nat)
    (hf : ∀ a, pnet page a = none) :
    ∀ (fuel attempt delay : Nat) (s : CR.CSt α),
      (CR.fpGo pnet page fuel attempt delay s).1 = none ∧
      (CR.fpGo pnet page fuel attempt delay s).2.out = s.out := by
  intro fuel
  induction fuel with
  | zero => intro attempt delay s; exact ⟨rfl, rfl⟩
  | succ n ih =>
    intro attempt delay s
    simp only [CR.fpGo, hf attempt]
    by_cases hn : n = 0
    · subst hn; exact ⟨rfl, rfl⟩
    · simp only [hn, if_false]
      exact ih (attempt + 1) (delay * 2) _

theorem CR.fetch_page_ok {α : Type} (pnet : CR.PNet α) (page : Nat)
    (s : CR.CSt α) (d : List α) (h : pnet page 0 = some d) :
    CR.fetch_page pnet page s
      = (some d, { s with events := s.events ++ [CR.CEv.req page] }) := by
  simp only [CR.fetch_page, CR.fpGo, h]

theorem CR.crawlPages_evmono {α : Type} (pnet : CR.PNet α) :
    ∀ (ps : List Nat) (s : CR.CSt α) (e : CR.CEv),
      e ∈ s.events → e ∈ (CR.crawlPages pnet ps s).events := by
  intro ps
  induction ps with
  | nil => intro s e he; exact he
  | cons p r ih =>
    intro s e he
    have h1 : e ∈ (CR.fetch_page pnet p s).2.events :=
      CR.fpGo_evmono pnet p 3 0 2 s e he
    simp only [CR.crawlPages]
    rcases hfp : CR.fetch_page pnet p s with ⟨o, s1⟩
    rw [hfp] at h1
    cases o with
    | some items => exact ih _ e h1
    | none => exact ih _ e h1

theorem CR.crawlPages_cons_none {α : Type} (pnet : CR.PNet α) (p : Nat)
    (r : List Nat) (s : CR.CSt α) (h : (CR.fetch_page pnet p s).1 = none) :
    CR.crawlPages pnet (p :: r) s
      = CR.crawlPages pnet r (CR.fetch_page pnet p s).2 := by
  simp only [CR.crawlPages]
  rcases hfp : CR.fetch_page pnet p s with ⟨o, s1⟩
  rw [hfp] at h
  simp only at h
  subst h
  rfl

theorem CR.crawlPages_cons_some {α : Type} (pnet : CR.PNet α) (p : Nat)
    (r : List Nat) (s : CR.CSt α) (d : List α)
    (h : (CR.fetch_page pnet p s).1 = some d) :
    CR.crawlPages pnet (p :: r) s
      = CR.crawlPages pnet r
          { (CR.fetch_page pnet p s).2 with
            out := (CR.fetch_page pnet p s).2.out ++ d } := by
  simp only [CR.crawlPages]
  rcases hfp : CR.fetch_page pnet p s with ⟨o, s1⟩
  rw [hfp] at h
  simp only at h
  subst h
  rfl

theorem CR.crawlPages_spec {α : Type} (pnet : CR.PNet α) (f : Nat → List α)
    (h50 : ∀ a, pnet 50 a = none)
    (hok : ∀ p, p ≠ 50 → pnet p 0 = some (f p)) :
    ∀ (ps : List Nat) (s : CR.CSt α),
      (CR.crawlPages pnet ps s).out
        = s.out ++ (ps.map fun p => if p = 50 then [] else f p).flatten ∧
      ∀ p ∈ ps, CR.CEv.req p ∈ (CR.crawlPages pnet ps s).events := by
  intro ps
  induction ps with
  | nil => intro s; exact ⟨by simp [CR.crawlPages], by simp⟩
  | cons p r ih =>
    intro s
    by_cases hp : p = 50
    · subst hp
      have hfail := CR.fpGo_fail pnet 50 h50 3 0 2 s
      rw [CR.crawlPages_cons_none pnet 50 r s hfail.1]
      obtain ⟨ho, hm⟩ := ih (CR.fetch_page pnet 50 s).2
      have hfail2 : (CR.fetch_page pnet 50 s).2.out = s.out := hfail.2
      constructor
      · rw [ho, hfail2]
        simp
      · intro q hq
        rcases List.mem_cons.mp hq with h1 | h1
        · subst h1
          apply CR.crawlPages_evmono
          exact CR.fpGo_req pnet 50 3 0 2 s (by omega)
        · exact hm q h1
    · rw [CR.crawlPages_cons_some pnet p r s (f p)
        (by rw [CR.fetch_page_ok pnet p s (f p) (hok p hp)])]
      obtain ⟨ho, hm⟩ := ih _
      constructor
      · rw [ho]
        rw [CR.fetch_page_ok pnet p s (f p) (hok p hp)]
        simp [hp]
      · intro q hq
        rcases List.mem_cons.mp hq with h1 | h1
        · subst h1
          apply CR.crawlPages_evmono
          show CR.CEv.req q ∈ (CR.fetch_page pnet q s).2.events
          exact CR.fpGo_req pnet q 3 0 2 s (by omega)
        · exact hm q h1

/-- Claim C8: when page 50 exhausts all its retries, the fetcher logs it and
continues — out of the 477 pages (ceiling division of 47663 by 100), every
page is still requested, and the Record Store receives exactly the items of
every page other than 50, in page order. -/
theorem c8_partial_page_tolerance {α : Type} (pnet : CR.PNet α) (f : Nat → List α)
    (h50 : ∀ a, pnet 50 a = none)
    (hok : ∀ p, p ≠ 50 → pnet p 0 = some (f p)) :
    CR.total_pages = 477 ∧
    (CR.crawl_data pnet).out
      = ((List.range' 1 477).map fun p => if p = 50 then [] else f p).flatten ∧
    ∀ p ∈ List.range' 1 477, CR.CEv.req p ∈ (CR.crawl_data pnet).events := by
  have ht : CR.total_pages = 477 := rfl
  have hspec := CR.crawlPages_spec pnet f h50 hok
      (List.range' 1 477) (⟨[], []⟩ : CR.CSt α)
  have heq : CR.crawl_data pnet
      = CR.crawlPages pnet (List.range' 1 477) (⟨[], []⟩ : CR.CSt α) := rfl
  refine ⟨ht, ?_, ?_⟩
  · rw [heq, hspec.1]
    simp
  · intro p hp
    rw [heq]
    exact hspec.2 p hp

/-- Witness for C8 at a concrete page oracle where only page 50 fails. -/
theorem c8_witness :
    CR.total_pages = 477 ∧
    (CR.crawl_data pnetW).out
      = ((List.range' 1 477).map fun p => if p = 50 then [] else [p]).flatten ∧
    ∀ p ∈ List.range' 1 477, CR.CEv.req p ∈ (CR.crawl_data pnetW).events :=
  c8_partial_page_tolerance pnetW (fun p => [p])
    (fun a => by simp [pnetW])
    (fun p hp => by simp [pnetW, hp])

end SafeScan
